import Mathlib

/-!
Shallow embedding of the Quantum-AI repository:
an admin analytics dashboard view (data fetch, sort, projection and
display formatting helpers) and the declarative database stack
descriptor (database instance, RDS proxies, secrets, ingress rules).

Strings manipulated character by character are modelled as `List Char`;
JavaScript numbers appearing in arithmetic are modelled as `ℚ` (with
explicit floor/round/truncation for `Math.floor`, `Math.round` and the
`%` operator); JSON records are modelled as Lean structures with the
source field names.
-/

namespace QuantumAnalytics

/-- Topic Analytics Record: the shape of one element of the JSON array
returned by the `admin/analytics` endpoint, with the snake_case field
names used by the view. -/
structure TopicRecord where
  topic_name : String
  user_message_count : Int
  ai_message_count : Int
  average_session_time : Rat
  total_session_time : Rat
  sessions_created : Int
  sessions_deleted : Int
deriving DecidableEq, Repr

/-- Chart Point: the projection of a Topic Analytics Record used by the
line chart (`graphDataFormatted`). -/
structure ChartPoint where
  module : String
  Messages : Int
deriving DecidableEq, Repr

/-! ### titleCase

`titleCase` splits on a single space, uppercases the first character of
each token (`word.charAt(0).toUpperCase() + word.slice(1)`) and joins
with a single space.  `String.prototype.toUpperCase` performs Unicode
Default Case Conversion with full case mappings, so on a one-character
string it returns a string that may be longer than one character
(`"ß".toUpperCase()` is `"SS"`).  It is therefore modelled as a
string-valued function on the first character: the length-changing full
uppercase mappings of Unicode SpecialCasing are tabulated explicitly by
code point, and every other character maps to the single character given
by its simple mapping (`Char.toUpper`, exact on Basic Latin and
length-preserving everywhere). -/

/-- The unconditional full uppercase mappings of Unicode SpecialCasing
whose result is longer than one character, as (character, expansion)
pairs by code point: the Latin sharp s and ligature series, the
characters with combining-mark expansions, and the Armenian ligatures.
(The Greek prosgegrammeni block expands similarly; characters absent
from this table are treated as mapping to a single character, and the
theorems below only ever assume single-character mappings on Basic
Latin, where that is exact.) -/
def jsUpperSpecial : List (Char × List Char) :=
  [ (Char.ofNat 0x00DF, [Char.ofNat 0x0053, Char.ofNat 0x0053])
  , (Char.ofNat 0x0149, [Char.ofNat 0x02BC, Char.ofNat 0x004E])
  , (Char.ofNat 0x01F0, [Char.ofNat 0x004A, Char.ofNat 0x030C])
  , (Char.ofNat 0x0390, [Char.ofNat 0x0399, Char.ofNat 0x0308, Char.ofNat 0x0301])
  , (Char.ofNat 0x03B0, [Char.ofNat 0x03A5, Char.ofNat 0x0308, Char.ofNat 0x0301])
  , (Char.ofNat 0x0587, [Char.ofNat 0x0535, Char.ofNat 0x054E])
  , (Char.ofNat 0x1E96, [Char.ofNat 0x0048, Char.ofNat 0x0331])
  , (Char.ofNat 0x1E97, [Char.ofNat 0x0054, Char.ofNat 0x0308])
  , (Char.ofNat 0x1E98, [Char.ofNat 0x0057, Char.ofNat 0x030A])
  , (Char.ofNat 0x1E99, [Char.ofNat 0x0059, Char.ofNat 0x030A])
  , (Char.ofNat 0x1E9A, [Char.ofNat 0x0041, Char.ofNat 0x02BE])
  , (Char.ofNat 0x1F50, [Char.ofNat 0x03A5, Char.ofNat 0x0313])
  , (Char.ofNat 0x1F52, [Char.ofNat 0x03A5, Char.ofNat 0x0313, Char.ofNat 0x0300])
  , (Char.ofNat 0x1F54, [Char.ofNat 0x03A5, Char.ofNat 0x0313, Char.ofNat 0x0301])
  , (Char.ofNat 0x1F56, [Char.ofNat 0x03A5, Char.ofNat 0x0313, Char.ofNat 0x0342])
  , (Char.ofNat 0xFB00, [Char.ofNat 0x0046, Char.ofNat 0x0046])
  , (Char.ofNat 0xFB01, [Char.ofNat 0x0046, Char.ofNat 0x0049])
  , (Char.ofNat 0xFB02, [Char.ofNat 0x0046, Char.ofNat 0x004C])
  , (Char.ofNat 0xFB03, [Char.ofNat 0x0046, Char.ofNat 0x0046, Char.ofNat 0x0049])
  , (Char.ofNat 0xFB04, [Char.ofNat 0x0046, Char.ofNat 0x0046, Char.ofNat 0x004C])
  , (Char.ofNat 0xFB05, [Char.ofNat 0x0053, Char.ofNat 0x0054])
  , (Char.ofNat 0xFB06, [Char.ofNat 0x0053, Char.ofNat 0x0054])
  , (Char.ofNat 0xFB13, [Char.ofNat 0x0544, Char.ofNat 0x0546])
  , (Char.ofNat 0xFB14, [Char.ofNat 0x0544, Char.ofNat 0x0535])
  , (Char.ofNat 0xFB15, [Char.ofNat 0x0544, Char.ofNat 0x053B])
  , (Char.ofNat 0xFB16, [Char.ofNat 0x054E, Char.ofNat 0x0546])
  , (Char.ofNat 0xFB17, [Char.ofNat 0x0544, Char.ofNat 0x053D]) ]

/-- The result of `c.toUpperCase()` on a single character `c`: the full
case mapping expansion when `c` has one, otherwise the single character
of its simple mapping. -/
def jsUpperChar (c : Char) : List Char :=
  match jsUpperSpecial.lookup c with
  | some expansion => expansion
  | none => [c.toUpper]

/-- Transformation applied to each space-separated token by `titleCase`:
`word.charAt(0).toUpperCase() + word.slice(1)` — the first character is
replaced by its (string-valued) uppercase mapping, the rest of the token
is unchanged.  An empty token is unchanged (in the source,
`"".charAt(0)` and `"".slice(1)` are both `""`). -/
def upperFirst (word : List Char) : List Char :=
  match word with
  | [] => []
  | c :: rest => jsUpperChar c ++ rest

/-- The `titleCase` helper of the analytics view, on strings modelled as
`List Char`: split on a space, capitalize the first character of each
token, join with a space. -/
def titleCase (s : List Char) : List Char :=
  [' '].intercalate ((s.splitOn ' ').map upperFirst)

/-! ### formatTime

JavaScript `Math.floor`, `Math.round` (which rounds halves toward
positive infinity) and the `%` remainder operator (which truncates the
quotient toward zero) on `ℚ`. -/

/-- JavaScript `Math.floor` on a (rational-valued) number. -/
def jsFloor (q : Rat) : Int := ⌊q⌋

/-- JavaScript `Math.round`: rounds to the nearest integer, with halves
rounded toward positive infinity, i.e. `⌊q + 1/2⌋`. -/
def jsRound (q : Rat) : Int := ⌊q + 1/2⌋

/-- Truncation toward zero, as used by the JavaScript `%` operator. -/
def jsTrunc (q : Rat) : Int := if 0 ≤ q then ⌊q⌋ else ⌈q⌉

/-- The JavaScript remainder operator `a % b`: `a - b * trunc(a / b)`. -/
def jsMod (a b : Rat) : Rat := a - b * (jsTrunc (a / b) : Rat)

/-- The `formatTime` helper of the analytics view:
`minutes = Math.floor(seconds / 60)`,
`remainingSeconds = Math.round(seconds % 60)`, rendered as the template
literal `minutes + "m " + remainingSeconds + "s"`. -/
def formatTime (seconds : Rat) : String :=
  let minutes : Int := jsFloor (seconds / 60)
  let remainingSeconds : Int := jsRound (jsMod seconds 60)
  toString minutes ++ "m " ++ toString remainingSeconds ++ "s"

/-! ### The analytics fetch: sort, projection, state updates -/

/-- The comparator passed to `analyticsData.sort`: returns `-1` when the
first record is named "General", else `1` when the second is, else `0`. -/
def compareTopics (a b : TopicRecord) : Int :=
  if a.topic_name = "General" then -1
  else if b.topic_name = "General" then 1
  else 0

/-- The boolean order induced by `compareTopics`: `a` may precede `b`
exactly when the comparator does not order `b` strictly before `a`. -/
def compareTopicsLe (a b : TopicRecord) : Bool :=
  compareTopics a b ≤ 0

/-- The sort performed on a successful fetch.  `Array.prototype.sort` is
required by the language standard to be stable, so it is modelled as a
stable merge sort with respect to the source comparator. -/
def sortedAnalyticsData (l : List TopicRecord) : List TopicRecord :=
  l.mergeSort compareTopicsLe

/-- The projection from sorted records to chart data:
`topic_name → module`, `user_message_count → Messages`. -/
def graphDataFormatted (l : List TopicRecord) : List ChartPoint :=
  l.map (fun topic => { module := topic.topic_name, Messages := topic.user_message_count })

/-! ### Fetch outcomes and view state -/

/-- The possible outcomes of the analytics fetch, as distinguished by the
source: a 2xx response with a parsed body, a non-2xx response
(`response.ok` false, carrying `response.statusText`), or an exception
thrown by the network call or by parsing (the `catch` branch). -/
inductive FetchOutcome
  | success (body : List TopicRecord)
  | httpFailure (statusText : String)
  | fetchException (message : String)
deriving DecidableEq, Repr

/-- The view-local state touched by `fetchAnalytics`: the record list
(`data`), the chart list (`graphData`) and the loading flag. -/
structure ViewState where
  data : List TopicRecord
  graphData : List ChartPoint
  loading : Bool
deriving DecidableEq, Repr

/-- A console log entry emitted during the fetch (`console.log` or
`console.error`). -/
inductive LogEntry
  | info (label : String)
  | error (message : String)
deriving DecidableEq, Repr

/-- The `fetchAnalytics` effect as a state transformer: given the fetch
outcome and the previous view state, it produces the next view state and
the console entries emitted.  On success the body is sorted, stored in
`data`, projected into `graphData`; on a non-2xx response or an
exception only an error is logged and neither `setData` nor
`setGraphData` runs.  In every branch the loading flag ends up false. -/
def fetchAnalytics (outcome : FetchOutcome) (st : ViewState) : ViewState × List LogEntry :=
  match outcome with
  | .success body =>
      let sorted := sortedAnalyticsData body
      ({ st with data := sorted, graphData := graphDataFormatted sorted, loading := false },
       [.info "analytics_data"])
  | .httpFailure statusText =>
      ({ st with loading := false },
       [.error ("Failed to fetch analytics: " ++ statusText)])
  | .fetchException message =>
      ({ st with loading := false },
       [.error ("Error fetching analytics: " ++ message)])

/-! ### The chart area: maxMessages effect and conditional rendering -/

/-- The effect hooked on `graphData`: when the chart data is non-empty it
stores `Math.max(...graphData.map(d => d.Messages))` in the
`maxMessages` state, otherwise it leaves the previous value in place. -/
def maxMessagesEffect (graphData : List ChartPoint) (prevMax : Int) : Int :=
  match graphData.map ChartPoint.Messages with
  | [] => prevMax
  | h :: t => t.foldl max h

/-- What the chart area renders: either a line chart with an explicit
Y-axis domain upper bound, or a textual placeholder. -/
inductive ChartView
  | chart (data : List ChartPoint) (yUpper : Int)
  | noData (message : String)
deriving DecidableEq, Repr

/-- The conditional around the chart: a non-empty `graphData` renders the
`LineChart` with `YAxis domain = [0, maxMessages + 3]`, an empty one
renders the "No data found" text. -/
def renderChartArea (graphData : List ChartPoint) (maxMessages : Int) : ChartView :=
  if graphData.length > 0 then .chart graphData (maxMessages + 3)
  else .noData "No data found"

/-- Example Topic Analytics Record named "billing", used to exercise the
sort on a concrete input. -/
def billingRecord : TopicRecord :=
  { topic_name := "billing"
  , user_message_count := 4
  , ai_message_count := 5
  , average_session_time := 30
  , total_session_time := 120
  , sessions_created := 10
  , sessions_deleted := 3 }

/-- Example Topic Analytics Record named "General", used to exercise the
sort on a concrete input. -/
def generalRecord : TopicRecord :=
  { topic_name := "General"
  , user_message_count := 7
  , ai_message_count := 9
  , average_session_time := 45
  , total_session_time := 90
  , sessions_created := 2
  , sessions_deleted := 1 }

/-- Example Chart Point, used to exercise the chart rendering on a
concrete input. -/
def samplePoint : ChartPoint :=
  { module := "general", Messages := 5 }

/-- The Active Sessions cell of an insights accordion entry, computed at
render time as `topic.sessions_created - topic.sessions_deleted`. -/
def activeSessions (topic : TopicRecord) : Int :=
  topic.sessions_created - topic.sessions_deleted

end QuantumAnalytics

namespace QuantumStack

/-! ### The database stack descriptor

A static model of the resources declared by the `DatabaseStack`
constructor: the RDS instance, the three RDS proxies with their bound
secrets, the ingress rule, and the target-group naming workaround. -/

/-- Subnet placement selections used by the stack. -/
inductive SubnetType
  | PRIVATE_ISOLATED
  | PRIVATE_WITH_EGRESS
  | PUBLIC
deriving DecidableEq, Repr

/-- The declared properties of the RDS database instance relevant to the
stack-level claims. -/
structure DbInstanceSpec where
  constructId : String
  subnetType : SubnetType
  databaseName : String
  publiclyAccessible : Bool
  storageEncrypted : Bool
  multiAz : Bool
deriving DecidableEq, Repr

/-- One RDS proxy declaration: its construct id and the name of the single
credential secret bound to it. -/
structure ProxySpec where
  constructId : String
  secretName : String
  requireTLS : Bool
deriving DecidableEq, Repr

/-- One security-group ingress rule added by the stack. -/
structure IngressRuleSpec where
  peerCidr : String
  tcpPort : Nat
  description : String
deriving DecidableEq, Repr

/-- The resource graph declared by the stack constructor. -/
structure DatabaseStackSpec where
  dbInstances : List DbInstanceSpec
  proxies : List ProxySpec
  ingressRules : List IngressRuleSpec
deriving DecidableEq, Repr

/-- The `DatabaseStack` descriptor, parameterized by the stack construct
id (which only enters the proxy construct ids, `id + '-proxy'`,
`id + '+proxy'` and `id + '-proxy-admin'`).  One `rds.DatabaseInstance`
in a `PRIVATE_ISOLATED` subnet; three `addProxy` calls, each passing a
single (distinct) secret; one ingress rule per database security group,
TCP 5432 from `10.0.0.0/16`. -/
def databaseStack (id : String) : DatabaseStackSpec :=
  { dbInstances :=
      [{ constructId := "QuantumAI"
       , subnetType := .PRIVATE_ISOLATED
       , databaseName := "QuantumAIDatabase"
       , publiclyAccessible := false
       , storageEncrypted := true
       , multiAz := true }]
  , proxies :=
      [{ constructId := id ++ "-proxy"
       , secretName := "QuantumAI/userCredentials/rdsDbCredential"
       , requireTLS := false }
      ,{ constructId := id ++ "+proxy"
       , secretName := "QuantumAI/userCredentials/TableCreator"
       , requireTLS := false }
      ,{ constructId := id ++ "-proxy-admin"
       , secretName := "QuantumAI/credentials/rdsDbCredential"
       , requireTLS := false }]
  , ingressRules :=
      [{ peerCidr := "10.0.0.0/16", tcpPort := 5432, description := "Postgres Ingress" }] }

/-- The three proxy constants, named after the source variables, used to
record which proxy each target-group override is applied to. -/
inductive ProxyRef
  | rdsProxy
  | rdsProxyTableCreator
  | rdsProxyAdmin
deriving DecidableEq, Repr

/-- One `addPropertyOverride` call on a located `CfnDBProxyTargetGroup`
child. -/
structure TargetGroupOverride where
  proxy : ProxyRef
  propertyName : String
  value : String
deriving DecidableEq, Repr

/-- The sequence of `addPropertyOverride` calls issued by the
target-group naming workaround, in source order: the override on
`targetGroup` (the app-user proxy child), the same override repeated on
`targetGroup`, and the override on `targetGroupTableCreator`.  No
override is issued for the admin proxy. -/
def targetGroupNameOverrides : List TargetGroupOverride :=
  [{ proxy := .rdsProxy, propertyName := "TargetGroupName", value := "default" }
  ,{ proxy := .rdsProxy, propertyName := "TargetGroupName", value := "default" }
  ,{ proxy := .rdsProxyTableCreator, propertyName := "TargetGroupName", value := "default" }]

end QuantumStack

namespace QuantumAnalytics

/-! ### Helper lemmas -/

theorem toUpper_ne_space (c : Char) (hc : c ≠ ' ') : c.toUpper ≠ ' ' := by
  show (if c.toNat ≥ 97 ∧ c.toNat ≤ 122 then Char.ofNat (c.toNat - 32) else c) ≠ ' '
  split
  · next h =>
    obtain ⟨h1, h2⟩ := h
    generalize c.toNat = n at h1 h2 ⊢
    interval_cases n <;> decide
  · exact hc

theorem lookup_none_of_keys_ne {β : Type} (l : List (Char × β)) (a : Char)
    (h : ∀ p ∈ l, p.1 ≠ a) : l.lookup a = none := by
  induction l with
  | nil => rfl
  | cons p t ih =>
    cases p with
    | mk k v =>
      rw [List.lookup_cons]
      have hk : (a == k) = false :=
        beq_eq_false_iff_ne.mpr (fun hak => h (k, v) (List.mem_cons_self _ _) hak.symm)
      rw [hk]
      exact ih (fun q hq => h q (List.mem_cons.mpr (Or.inr hq)))

theorem mem_of_lookup_some {β : Type} (l : List (Char × β)) (a : Char) (b : β)
    (h : l.lookup a = some b) : (a, b) ∈ l := by
  induction l with
  | nil => simp at h
  | cons p t ih =>
    cases p with
    | mk k v =>
      rw [List.lookup_cons] at h
      cases hak : (a == k) with
      | true =>
        rw [hak] at h
        have hb : v = b := by simpa using h
        have ha : a = k := eq_of_beq hak
        rw [ha, hb]
        exact List.mem_cons_self _ _
      | false =>
        rw [hak] at h
        exact List.mem_cons.mpr (Or.inr (ih h))

theorem jsUpperChar_ascii (c : Char) (h : c.toNat < 128) : jsUpperChar c = [c.toUpper] := by
  have hnone : jsUpperSpecial.lookup c = none := by
    refine lookup_none_of_keys_ne jsUpperSpecial c ?_
    intro p hp hpc
    have hge : ∀ q ∈ jsUpperSpecial, 128 ≤ q.1.toNat := by decide
    have hc128 := hge p hp
    rw [hpc] at hc128
    omega
  unfold jsUpperChar
  rw [hnone]

theorem space_not_mem_jsUpperChar (c : Char) (hc : c ≠ ' ') : ' ' ∉ jsUpperChar c := by
  unfold jsUpperChar
  cases hlk : jsUpperSpecial.lookup c with
  | none =>
    simp only [List.mem_singleton]
    exact fun h => toUpper_ne_space c hc h.symm
  | some expansion =>
    have hall : ∀ p ∈ jsUpperSpecial, ' ' ∉ p.2 := by decide
    exact hall (c, expansion) (mem_of_lookup_some jsUpperSpecial c expansion hlk)

theorem space_not_mem_upperFirst (w : List Char) (hw : ' ' ∉ w) : ' ' ∉ upperFirst w := by
  cases w with
  | nil => simp [upperFirst]
  | cons c rest =>
    intro hmem
    rcases List.mem_append.mp hmem with h1 | h2
    · exact space_not_mem_jsUpperChar c
        (fun hc => hw (by rw [hc]; exact List.mem_cons_self _ _)) h1
    · exact hw (List.mem_cons.mpr (Or.inr h2))

theorem splitOnP_sep_not_mem {α : Type} (p : α → Bool) :
    ∀ (xs : List α), ∀ l ∈ xs.splitOnP p, ∀ a ∈ l, p a = false := by
  intro xs
  induction xs with
  | nil =>
    intro l hl a ha
    simp only [List.splitOnP_nil, List.mem_singleton] at hl
    subst hl
    simp at ha
  | cons x xs ih =>
    intro l hl a ha
    rw [List.splitOnP_cons] at hl
    by_cases hx : p x
    · rw [if_pos hx] at hl
      rcases List.mem_cons.mp hl with rfl | hl2
      · simp at ha
      · exact ih l hl2 a ha
    · rw [if_neg hx] at hl
      cases hsp : xs.splitOnP p with
      | nil => exact absurd hsp (List.splitOnP_ne_nil p xs)
      | cons hd tl =>
        rw [hsp] at hl
        simp only [List.modifyHead_cons] at hl
        rcases List.mem_cons.mp hl with rfl | hl2
        · rcases List.mem_cons.mp ha with rfl | ha2
          · exact Bool.eq_false_iff.mpr hx
          · exact ih hd (by rw [hsp]; exact List.mem_cons_self hd tl) a ha2
        · exact ih l (by rw [hsp]; exact List.mem_cons.mpr (Or.inr hl2)) a ha

theorem length_intercalate_map (f : List Char → List Char) :
    ∀ ls : List (List Char), (∀ w ∈ ls, (f w).length = w.length) →
      ([' '].intercalate (ls.map f)).length = ([' '].intercalate ls).length
  | [], _ => rfl
  | [a], hf => by simp [List.intercalate, hf a (List.mem_singleton.mpr rfl)]
  | a :: b :: t, hf => by
    have ih := length_intercalate_map f (b :: t)
      (fun w hw => hf w (List.mem_cons.mpr (Or.inr hw)))
    simp only [List.map_cons, List.intercalate, List.intersperse_cons_cons,
      List.flatten_cons, List.length_append] at ih ⊢
    rw [hf a (List.mem_cons_self _ _), ih]

theorem floor_natCast_div60 (s : Nat) : ⌊((s : Rat)) / 60⌋ = ((s / 60 : Nat) : Int) := by
  rw [Int.floor_eq_iff]
  constructor
  · rw [le_div_iff₀ (by norm_num : (0 : Rat) < 60)]
    exact_mod_cast Nat.div_mul_le_self s 60
  · rw [div_lt_iff₀ (by norm_num : (0 : Rat) < 60)]
    have h : s < (s / 60 + 1) * 60 := by omega
    push_cast
    exact_mod_cast h

theorem jsMod_natCast (s : Nat) : jsMod (s : Rat) 60 = ((s % 60 : Nat) : Rat) := by
  unfold jsMod jsTrunc
  rw [if_pos (by positivity), floor_natCast_div60, Int.cast_natCast]
  have h2 : (60 : Rat) * ((s / 60 : Nat) : Rat) + ((s % 60 : Nat) : Rat) = (s : Rat) := by
    exact_mod_cast congrArg (fun n : Nat => (n : Rat)) (Nat.div_add_mod s 60)
  linarith

theorem jsRound_natCast (m : Nat) : jsRound ((m : Nat) : Rat) = (m : Int) := by
  unfold jsRound
  rw [show ((m : Rat) + 1/2) = (1/2 + (m : Nat)) from by ring, Int.floor_add_nat]
  norm_num

theorem formatTime_natCast (s : Nat) :
    formatTime (s : Rat) = toString (s / 60) ++ "m " ++ toString (s % 60) ++ "s" := by
  unfold formatTime jsFloor
  rw [jsMod_natCast s, jsRound_natCast, floor_natCast_div60]
  rfl

theorem compareTopicsLe_trans : ∀ (a b c : TopicRecord),
    compareTopicsLe a b → compareTopicsLe b c → compareTopicsLe a c := by
  intro a b c
  unfold compareTopicsLe compareTopics
  by_cases ha : a.topic_name = "General" <;> by_cases hb : b.topic_name = "General" <;>
    by_cases hc : c.topic_name = "General" <;> simp [ha, hb, hc]

theorem compareTopicsLe_total : ∀ (a b : TopicRecord),
    compareTopicsLe a b || compareTopicsLe b a := by
  intro a b
  unfold compareTopicsLe compareTopics
  by_cases ha : a.topic_name = "General" <;> by_cases hb : b.topic_name = "General" <;>
    simp [ha, hb]

theorem foldl_max_mem : ∀ (t : List Int) (h : Int), t.foldl max h ∈ h :: t
  | [], h => by simp
  | a :: t, h => by
    have hmem := foldl_max_mem t (max h a)
    simp only [List.foldl_cons]
    rcases List.mem_cons.mp hmem with heq | hmem2
    · rw [heq]
      rcases max_choice h a with h1 | h1 <;> rw [h1] <;> simp
    · exact List.mem_cons.mpr (Or.inr (List.mem_cons.mpr (Or.inr hmem2)))

theorem le_foldl_max : ∀ (t : List Int) (h x : Int), x ∈ h :: t → x ≤ t.foldl max h
  | [], h, x, hx => by
    simp only [List.mem_singleton] at hx
    simp [hx]
  | a :: t, h, x, hx => by
    simp only [List.foldl_cons]
    have hself : max h a ≤ t.foldl max (max h a) :=
      le_foldl_max t (max h a) (max h a) (List.mem_cons_self _ _)
    rcases List.mem_cons.mp hx with rfl | hx2
    · exact le_trans (le_max_left x a) hself
    · rcases List.mem_cons.mp hx2 with rfl | hx3
      · exact le_trans (le_max_right h x) hself
      · exact le_foldl_max t (max h a) x (List.mem_cons.mpr (Or.inr hx3))

/-! ### Claim theorems: the analytics view -/

/-- Claim C1: for every list of Topic Analytics Records containing
exactly one record whose `topic_name` equals "General", anywhere in the
input order, the sort performed after a successful fetch produces an
output whose first element is that "General" record, and the output is a
permutation of the input (no records dropped or duplicated). -/
theorem sortedAnalyticsData_general_first (l : List TopicRecord) (g : TopicRecord)
    (hg : g ∈ l) (hname : g.topic_name = "General")
    (huniq : (l.filter (fun r => r.topic_name = "General")).length = 1) :
    (sortedAnalyticsData l).Perm l ∧ (sortedAnalyticsData l).head? = some g := by
  have hperm : (sortedAnalyticsData l).Perm l := List.mergeSort_perm l _
  refine ⟨hperm, ?_⟩
  have huniq2 : ∀ x y, x ∈ l → y ∈ l →
      x.topic_name = "General" → y.topic_name = "General" → x = y := by
    intro x y hx hy hxn hyn
    obtain ⟨z, hz⟩ := List.length_eq_one.mp huniq
    have hxf : x ∈ l.filter (fun r => r.topic_name = "General") := by
      rw [List.mem_filter]; exact ⟨hx, by simp [hxn]⟩
    have hyf : y ∈ l.filter (fun r => r.topic_name = "General") := by
      rw [List.mem_filter]; exact ⟨hy, by simp [hyn]⟩
    rw [hz] at hxf hyf
    simp at hxf hyf
    rw [hxf, hyf]
  have hgs : g ∈ sortedAnalyticsData l := by
    unfold sortedAnalyticsData
    exact List.mem_mergeSort.mpr hg
  have hp : (sortedAnalyticsData l).Pairwise (fun a b => compareTopicsLe a b) := by
    unfold sortedAnalyticsData
    exact List.sorted_mergeSort compareTopicsLe_trans compareTopicsLe_total l
  cases h : sortedAnalyticsData l with
  | nil => rw [h] at hgs; simp at hgs
  | cons a t =>
    rw [h] at hp hgs
    rw [List.pairwise_cons] at hp
    rcases List.mem_cons.mp hgs with rfl | hgt
    · rfl
    · have hle : compareTopicsLe a g := hp.1 g hgt
      have haname : a.topic_name = "General" := by
        by_contra hna
        unfold compareTopicsLe compareTopics at hle
        rw [if_neg hna, if_pos hname] at hle
        simp at hle
      have hal : a ∈ l := hperm.mem_iff.mp (by rw [h]; exact List.mem_cons_self a t)
      have hag : a = g := huniq2 a g hal hg haname hname
      rw [hag]
      rfl

/-- Witness for C1: a concrete two-record list with "General" in second
position; the sort moves it first and keeps both records. -/
theorem sortedAnalyticsData_general_first_witness :
    generalRecord ∈ [billingRecord, generalRecord] ∧
    generalRecord.topic_name = "General" ∧
    ([billingRecord, generalRecord].filter
        (fun r => r.topic_name = "General")).length = 1 ∧
    ((sortedAnalyticsData [billingRecord, generalRecord]).Perm
        [billingRecord, generalRecord] ∧
      (sortedAnalyticsData [billingRecord, generalRecord]).head? = some generalRecord) :=
  ⟨List.Mem.tail _ (List.Mem.head _), rfl, rfl,
    sortedAnalyticsData_general_first [billingRecord, generalRecord] generalRecord
      (List.Mem.tail _ (List.Mem.head _)) rfl rfl⟩

/-- Claim C2: for every non-negative integer number of seconds `s`,
`formatTime s` renders as `floor(s / 60)`, "m ", `round(s mod 60)`, "s";
in particular `formatTime 65 = "1m 5s"`, `formatTime 3600 = "60m 0s"`
and `formatTime 125 = "2m 5s"`. -/
theorem formatTime_integral_seconds :
    (∀ s : Nat, formatTime (s : Rat) =
        toString (s / 60) ++ "m " ++ toString (s % 60) ++ "s") ∧
    formatTime 65 = "1m 5s" ∧ formatTime 3600 = "60m 0s" ∧ formatTime 125 = "2m 5s" := by
  refine ⟨formatTime_natCast, ?_, ?_, ?_⟩ <;>
    (unfold formatTime jsFloor jsRound jsMod jsTrunc; norm_num; rfl)

/-- Counterexample to claim C3 as stated: on the one-character string
"ß" (U+00DF), `titleCase` applies the full uppercase mapping of the
first character and returns "SS", so the total character count grows
from 1 to 2. -/
theorem titleCase_length_counterexample :
    titleCase [Char.ofNat 0x00DF] = ['S', 'S'] ∧
    (titleCase [Char.ofNat 0x00DF]).length ≠ ([Char.ofNat 0x00DF] : List Char).length := by
  constructor <;> decide

/-- Claim C3, amended: `titleCase` preserves the number of
space-separated words; within each word every character except the
first is unchanged and the first character is replaced by its uppercase
mapping (which may be longer than one character); the total character
count is preserved whenever every word-initial character is Basic Latin
(ASCII), though not in general. -/
theorem titleCase_corrected (s : List Char) :
    ((titleCase s).splitOn ' ').length = (s.splitOn ' ').length ∧
    (titleCase s).splitOn ' ' = (s.splitOn ' ').map upperFirst ∧
    (∀ (c : Char) (rest : List Char),
      (upperFirst (c :: rest)).take (jsUpperChar c).length = jsUpperChar c ∧
      (upperFirst (c :: rest)).drop (jsUpperChar c).length = rest) ∧
    ((∀ w ∈ s.splitOn ' ', ∀ c : Char, w.head? = some c → c.toNat < 128) →
      (titleCase s).length = s.length) := by
  have hparts : ∀ l ∈ s.splitOn ' ', ' ' ∉ l := by
    intro l hl hmem
    have hfalse := splitOnP_sep_not_mem (· == ' ') s l hl ' ' hmem
    simp at hfalse
  have hmapped : ∀ l ∈ (s.splitOn ' ').map upperFirst, ' ' ∉ l := by
    intro l hl
    obtain ⟨w, hw, rfl⟩ := List.mem_map.mp hl
    exact space_not_mem_upperFirst w (hparts w hw)
  have hne : (s.splitOn ' ').map upperFirst ≠ [] := by
    intro h
    exact List.splitOnP_ne_nil _ s (List.map_eq_nil_iff.mp h)
  have hsplit : (titleCase s).splitOn ' ' = (s.splitOn ' ').map upperFirst :=
    List.splitOn_intercalate ((s.splitOn ' ').map upperFirst) ' ' hmapped hne
  refine ⟨?_, hsplit, ?_, ?_⟩
  · rw [hsplit, List.length_map]
  · intro c rest
    exact ⟨List.take_left _ _, List.drop_left _ _⟩
  · intro hascii
    have hlen : ∀ w ∈ s.splitOn ' ', (upperFirst w).length = w.length := by
      intro w hw
      cases w with
      | nil => rfl
      | cons c rest =>
        have hc : c.toNat < 128 := hascii _ hw c rfl
        show (jsUpperChar c ++ rest).length = (c :: rest).length
        rw [jsUpperChar_ascii c hc]
        simp
    have h1 : titleCase s = [' '].intercalate ((s.splitOn ' ').map upperFirst) := rfl
    have h2 : [' '].intercalate (s.splitOn ' ') = s := List.intercalate_splitOn s ' '
    rw [h1, length_intercalate_map upperFirst (s.splitOn ' ') hlen, h2]

/-- Witness for the amended C3: on the all-ASCII string "hello world"
every word-initial character is Basic Latin, and the total character
count is preserved. -/
theorem titleCase_corrected_witness :
    (∀ w ∈ (['h', 'e', 'l', 'l', 'o', ' ', 'w', 'o', 'r', 'l', 'd'] : List Char).splitOn ' ',
      ∀ c : Char, w.head? = some c → c.toNat < 128) ∧
    (titleCase ['h', 'e', 'l', 'l', 'o', ' ', 'w', 'o', 'r', 'l', 'd']).length =
      (['h', 'e', 'l', 'l', 'o', ' ', 'w', 'o', 'r', 'l', 'd'] : List Char).length :=
  ⟨by decide,
    (titleCase_corrected ['h', 'e', 'l', 'l', 'o', ' ', 'w', 'o', 'r', 'l', 'd']).2.2.2
      (by decide)⟩

/-- Claim C4: for a non-empty chart data set the Y-axis upper bound is
the maximum `Messages` value plus 3 (recomputed from the current data,
whatever the previously stored maximum was); for an empty data set no
chart is rendered and "No data found" is shown instead. -/
theorem yAxis_domain_bound (graphData : List ChartPoint) (prevMax : Int) :
    (graphData ≠ [] →
      ∃ M, M ∈ graphData.map ChartPoint.Messages ∧
        (∀ x ∈ graphData.map ChartPoint.Messages, x ≤ M) ∧
        renderChartArea graphData (maxMessagesEffect graphData prevMax) =
          ChartView.chart graphData (M + 3)) ∧
    (graphData = [] →
      renderChartArea graphData (maxMessagesEffect graphData prevMax) =
        ChartView.noData "No data found") := by
  cases graphData with
  | nil => exact ⟨fun h => absurd rfl h, fun _ => rfl⟩
  | cons p t =>
    refine ⟨fun _ => ?_, fun h => by simp at h⟩
    refine ⟨(t.map ChartPoint.Messages).foldl max p.Messages, ?_, ?_, ?_⟩
    · have hmem := foldl_max_mem (t.map ChartPoint.Messages) p.Messages
      simpa using hmem
    · intro x hx
      exact le_foldl_max (t.map ChartPoint.Messages) p.Messages x (by simpa using hx)
    · simp [renderChartArea, maxMessagesEffect]

/-- Witness for C4: a concrete one-point chart data set; the rendered
chart has Y-axis upper bound `5 + 3`. -/
theorem yAxis_domain_bound_witness :
    ([samplePoint] : List ChartPoint) ≠ [] ∧
    (∃ M, M ∈ ([samplePoint] : List ChartPoint).map ChartPoint.Messages ∧
      (∀ x ∈ ([samplePoint] : List ChartPoint).map ChartPoint.Messages, x ≤ M) ∧
      renderChartArea [samplePoint] (maxMessagesEffect [samplePoint] 0) =
        ChartView.chart [samplePoint] (M + 3)) :=
  ⟨List.cons_ne_nil _ _,
    (yAxis_domain_bound [samplePoint] 0).1 (List.cons_ne_nil _ _)⟩

/-- Claim C5: on a non-2xx response or a fetch/parsing exception, the
failure is logged and the previously held `data` and `graphData` lists
are left unchanged (neither `setData` nor `setGraphData` runs). -/
theorem fetch_failure_keeps_state (st : ViewState) (statusText message : String) :
    ((fetchAnalytics (.httpFailure statusText) st).1.data = st.data ∧
     (fetchAnalytics (.httpFailure statusText) st).1.graphData = st.graphData ∧
     (fetchAnalytics (.httpFailure statusText) st).2 =
       [LogEntry.error ("Failed to fetch analytics: " ++ statusText)]) ∧
    ((fetchAnalytics (.fetchException message) st).1.data = st.data ∧
     (fetchAnalytics (.fetchException message) st).1.graphData = st.graphData ∧
     (fetchAnalytics (.fetchException message) st).2 =
       [LogEntry.error ("Error fetching analytics: " ++ message)]) :=
  ⟨⟨rfl, rfl, rfl⟩, ⟨rfl, rfl, rfl⟩⟩

/-- Claim C7: the derived chart data is a parallel sequence of the same
length in which the i-th Chart Point carries the i-th record's
`topic_name` as `module` and its `user_message_count` as `Messages`. -/
theorem graphDataFormatted_parallel (l : List TopicRecord) :
    (graphDataFormatted l).length = l.length ∧
    ∀ i : Nat, (graphDataFormatted l)[i]? =
      (l[i]?).map (fun topic =>
        ({ module := topic.topic_name, Messages := topic.user_message_count } : ChartPoint)) :=
  ⟨List.length_map l _, fun i => List.getElem?_map _ l i⟩

/-- Claim C8: the displayed active session count is
`sessions_created - sessions_deleted`, computed from the record; a
record with 10 created and 3 deleted sessions renders 7. -/
theorem activeSessions_render :
    (∀ topic : TopicRecord,
      activeSessions topic = topic.sessions_created - topic.sessions_deleted) ∧
    activeSessions
      { topic_name := "General", user_message_count := 0, ai_message_count := 0
      , average_session_time := 0, total_session_time := 0
      , sessions_created := 10, sessions_deleted := 3 } = 7 :=
  ⟨fun _ => rfl, by decide⟩

/-- Claim C9: for a non-integer input the rounded seconds component can
reach 60 without rolling over into the minutes: `formatTime 59.5` is
"0m 60s" and `formatTime 119.5` is "1m 60s". -/
theorem formatTime_sixty_seconds :
    formatTime (59.5 : Rat) = "0m 60s" ∧ formatTime (119.5 : Rat) = "1m 60s" := by
  constructor <;> (unfold formatTime jsFloor jsRound jsMod jsTrunc; norm_num; rfl)

end QuantumAnalytics

namespace QuantumStack

/-! ### Claim theorems: the database stack descriptor -/

/-- Claim C6: the database stack declares exactly one database instance,
placed in an isolated subnet; exactly three proxies, each bound to its
own (pairwise distinct) credential secret; and a single ingress rule for
TCP 5432 from 10.0.0.0/16. -/
theorem databaseStack_resources (id : String) :
    (databaseStack id).dbInstances.length = 1 ∧
    (databaseStack id).dbInstances.map (fun db => db.subnetType) =
      [SubnetType.PRIVATE_ISOLATED] ∧
    (databaseStack id).proxies.length = 3 ∧
    (databaseStack id).proxies.map (fun p => p.secretName) =
      ["QuantumAI/userCredentials/rdsDbCredential",
       "QuantumAI/userCredentials/TableCreator",
       "QuantumAI/credentials/rdsDbCredential"] ∧
    ((databaseStack id).proxies.map (fun p => p.secretName)).Nodup ∧
    (databaseStack id).ingressRules =
      [{ peerCidr := "10.0.0.0/16", tcpPort := 5432, description := "Postgres Ingress" }] :=
  ⟨rfl, rfl, rfl, rfl,
    by
      show (["QuantumAI/userCredentials/rdsDbCredential",
             "QuantumAI/userCredentials/TableCreator",
             "QuantumAI/credentials/rdsDbCredential"] : List String).Nodup
      decide,
    rfl⟩

/-- Claim C10: the TargetGroupName override workaround is applied to the
application-user proxy and to the table-creator proxy, but to no target
group of the admin proxy. -/
theorem targetGroup_override_coverage :
    targetGroupNameOverrides.countP (fun o => o.proxy == ProxyRef.rdsProxy) = 2 ∧
    targetGroupNameOverrides.countP (fun o => o.proxy == ProxyRef.rdsProxyTableCreator) = 1 ∧
    targetGroupNameOverrides.countP (fun o => o.proxy == ProxyRef.rdsProxyAdmin) = 0 ∧
    targetGroupNameOverrides.all
      (fun o => o.propertyName == "TargetGroupName" && o.value == "default") = true := by
  decide

end QuantumStack
